import Mathlib

/-!
Verification of the retrieval-and-caching subsystem of the
ux-skills-assessment backend (`server_py/rag.py`, `server_py/vector_store.py`).

The Python code is shallowly embedded below:

* numbers that the Python code manipulates as floats (scores, distances,
  relevance scores, timestamps) are modelled as exact rationals (`ℚ`);
* Python's `sorted`/`list.sort` (a stable sort) is modelled by
  `List.insertionSort`, which is stable for a `key a ≤ key b` relation;
  the output of a stable sort by a total preorder is unique, so this is
  the same list Timsort produces;
* the ChromaDB-backed document store is an external collaborator; each
  dispatched query's observable outcome is a parameter (`QueryEnv`):
  `none` models a query whose future raised or timed out, `some chunks`
  models the chunk list the store handed back (`vector_store.semantic_search`
  catches its own internal errors and returns the empty list, which is
  `some []` here);
* `datetime.now()` is modelled as an explicit `now : ℚ` argument (seconds);
  `timedelta(hours=1)` is `3600`;
* the in-memory cache dict is an association list with unique keys;
* `_get_cache_key` hashes its key string with md5; the digest of a string
  is a function of the string, so key-equality statements are unaffected
  by omitting the digest step, and the model returns the pre-image
  `key_data` string itself.
-/

/-- Metadata attached to a chunk by the document store
(`vector_store.add_resource`, lines 102-114; social ingestion paths may
additionally carry engagement fields, cf. `twitter_fetcher.py`). -/
structure ResourceMetadata where
  resource_id : String
  title : String
  url : String
  category : String
  difficulty : String
  resource_type : String
  source : String
  tags : String
  estimated_read_time : Nat
  engagement_score : ℚ
  view_count : ℚ
deriving DecidableEq, Repr

/-- One search hit as formatted by `vector_store.semantic_search`
(lines 186-191): chunk id, raw content, metadata, similarity distance. -/
structure Chunk where
  chunk_id : String
  content : String
  metadata : ResourceMetadata
  distance : ℚ
deriving DecidableEq, Repr

/-- The record `vector_store.get_unique_resources` builds for the first
chunk of each resource (lines 247-259).  Note there is no `metadata`
field: the source constructs a fresh dict with exactly these keys. -/
structure UniqueResource where
  resource_id : String
  title : String
  url : String
  category : String
  difficulty : String
  resource_type : String
  source : String
  tags : List String
  estimated_read_time : Nat
  content_preview : String
  relevance_score : ℚ
deriving DecidableEq, Repr

/-- The record built from one chunk (`vector_store.py` lines 247-259):
all fields from the chunk's metadata, `content_preview` the first 300
characters of the content, `relevance_score = 1 - distance`. -/
def mkUniqueResource (chunk : Chunk) : UniqueResource where
  resource_id := chunk.metadata.resource_id
  title := chunk.metadata.title
  url := chunk.metadata.url
  category := chunk.metadata.category
  difficulty := chunk.metadata.difficulty
  resource_type := chunk.metadata.resource_type
  source := chunk.metadata.source
  tags := if chunk.metadata.tags ≠ "" then chunk.metadata.tags.splitOn "," else []
  estimated_read_time := chunk.metadata.estimated_read_time
  content_preview := chunk.content.take 300
  relevance_score := 1 - chunk.distance

/-- Loop of `vector_store.get_unique_resources` (lines 239-259): walk the
chunks in order; a chunk whose `resource_id` is non-empty (Python
truthiness) and not seen yet materializes a record; every other chunk is
discarded. `seen` is the key set of the insertion-ordered `seen_resources`
dict. -/
def get_unique_resources_aux : List String → List Chunk → List UniqueResource
  | _, [] => []
  | seen, c :: rest =>
    if c.metadata.resource_id ≠ "" ∧ c.metadata.resource_id ∉ seen then
      mkUniqueResource c :: get_unique_resources_aux (c.metadata.resource_id :: seen) rest
    else
      get_unique_resources_aux seen rest

/-- `VectorStore.get_unique_resources` (vector_store.py lines 234-261). -/
def get_unique_resources (chunks : List Chunk) : List UniqueResource :=
  get_unique_resources_aux [] chunks

/-- `RAGRetriever.semantic_search_resources` (rag.py lines 32-51) after the
store query: deduplicate the returned chunks, keep the first `top_k`. -/
def semantic_search_resources (chunks : List Chunk) (top_k : Nat) : List UniqueResource :=
  (get_unique_resources chunks).take top_k

/-- One entry of the category-score vector (`categories` argument). -/
structure CategoryScore where
  name : String
  score : ℚ
  maxScore : ℚ
deriving DecidableEq, Repr

/-- The sort key used in rag.py lines 55-58, 74-77 and 302-305:
`(c.get('score', 0) / c.get('maxScore', 100)) if c.get('maxScore', 0) > 0 else 0`. -/
def ratio (c : CategoryScore) : ℚ :=
  if 0 < c.maxScore then c.score / c.maxScore else 0

/-- The comparison realised by Python's stable `sorted(categories, key=ratio)`. -/
def ratioLe (a b : CategoryScore) : Prop := ratio a ≤ ratio b

instance : DecidableRel ratioLe :=
  fun a b => inferInstanceAs (Decidable (ratio a ≤ ratio b))

instance : IsTotal CategoryScore ratioLe := ⟨fun a b => le_total (ratio a) (ratio b)⟩

instance : IsTrans CategoryScore ratioLe := ⟨fun _ _ _ => le_trans⟩

/-- `sorted(categories, key=lambda c: ...)` — Python's sort is stable, and a
stable sort by a total preorder has a unique output, so `insertionSort`
on the `ratio a ≤ ratio b` relation produces the same list. -/
def sortByRatio (categories : List CategoryScore) : List CategoryScore :=
  List.insertionSort ratioLe categories

/-- The two weakest category names: `sorted_cats[:2]` then `.get('name')`
(rag.py lines 55-59 and 74-78 compute exactly this). -/
def weakCatNames (categories : List CategoryScore) : List String :=
  ((sortByRatio categories).take 2).map (·.name)

/-- Python compares strings lexicographically by code point; `String.data`
is the code-point list, and `List` order is lexicographic, so
`a ≤ b ↔ ¬ b.data < a.data` models `sorted(cat_names)`'s comparison. -/
def pyStrLe (a b : String) : Prop := ¬ (b.data < a.data)

instance : DecidableRel pyStrLe :=
  fun a b => inferInstanceAs (Decidable (¬ (b.data < a.data)))

/-- `RAGRetriever._get_cache_key` (rag.py lines 53-61): the two weakest
category names, sorted alphabetically, joined with the stage and `top_k`.
The source feeds this `key_data` string to `hashlib.md5`; the digest is a
function of `key_data`, so equal `key_data` strings give equal cache keys
and the model uses `key_data` itself as the key. -/
def get_cache_key (stage : String) (categories : List CategoryScore) (top_k : Nat) : String :=
  stage ++ ":" ++ String.intercalate "," (List.insertionSort pyStrLe (weakCatNames categories))
    ++ ":" ++ toString top_k

/-- One query submitted to the document store
(`vector_store.semantic_search`'s arguments). -/
structure QueryCall where
  query : String
  category : Option String
  difficulty : Option String
  resource_type : Option String
  top_k : Nat
deriving DecidableEq, Repr

/-- The behaviour of the document store plus thread pool during one call:
`none` means the dispatched query's future raised or exceeded its 5 s
timeout (rag.py lines 109-115); `some chunks` means the query delivered
`chunks` (internal store errors surface as `some []`, because
`vector_store.semantic_search` catches them and returns `[]`). -/
abbrev QueryEnv := QueryCall → Option (List Chunk)

/-- A category query of the fan-out: `"<cat> for <stage> level learning"`
with a `category` filter and `top_k=3` (rag.py lines 87-96). -/
def catQuery (stage cat : String) : QueryCall :=
  ⟨cat ++ " for " ++ stage ++ " level learning", some cat, none, none, 3⟩

/-- The stage-wide query: `"Career growth for <stage> UX designer"`,
unfiltered, `top_k=3` (rag.py lines 98-106). -/
def stageQuery (stage : String) : QueryCall :=
  ⟨"Career growth for " ++ stage ++ " UX designer", none, none, none, 3⟩

/-- The queries `_retrieve_resources_parallel` submits, in submission
order: one per weakest category, then the stage query (rag.py 83-106). -/
def fanoutQueries (stage : String) (categories : List CategoryScore) : List QueryCall :=
  (weakCatNames categories).map (catQuery stage) ++ [stageQuery stage]

/-- The `all_resources` accumulation of rag.py lines 108-115: results are
collected in submission order; a failed future is logged and skipped. -/
def gatherResources (env : QueryEnv) (stage : String) (categories : List CategoryScore) :
    List UniqueResource :=
  (fanoutQueries stage categories).foldl
    (fun acc q =>
      match env q with
      | some chunks => acc ++ semantic_search_resources chunks q.top_k
      | none => acc)
    []

/-- Loop of rag.py lines 118-125: second-level deduplication of the merged
per-query results, by `resource_id` truthiness and a `seen_ids` set. -/
def dedupResourcesAux : List String → List UniqueResource → List UniqueResource
  | _, [] => []
  | seen, r :: rest =>
    if r.resource_id ≠ "" ∧ r.resource_id ∉ seen then
      r :: dedupResourcesAux (r.resource_id :: seen) rest
    else
      dedupResourcesAux seen rest

/-- rag.py lines 117-125 as a function of the merged list. -/
def dedupResources (l : List UniqueResource) : List UniqueResource :=
  dedupResourcesAux [] l

/-- The comparison realised by
`unique_results.sort(key=lambda x: x.get('relevance_score', 0), reverse=True)`
(rag.py line 128): stable descending sort by relevance score. -/
def relDesc (a b : UniqueResource) : Prop := b.relevance_score ≤ a.relevance_score

instance : DecidableRel relDesc :=
  fun a b => inferInstanceAs (Decidable (b.relevance_score ≤ a.relevance_score))

instance : IsTotal UniqueResource relDesc :=
  ⟨fun a b => (le_total b.relevance_score a.relevance_score)⟩

instance : IsTrans UniqueResource relDesc := ⟨fun _ _ _ h h2 => le_trans h2 h⟩

/-- `RAGRetriever._retrieve_resources_parallel` (rag.py lines 63-130):
gather the fan-out results, deduplicate, sort by relevance descending
(stable), truncate to `top_k`. -/
def retrieve_resources_parallel (env : QueryEnv) (stage : String)
    (categories : List CategoryScore) (top_k : Nat) : List UniqueResource :=
  (List.insertionSort relDesc (dedupResources (gatherResources env stage categories))).take top_k

/-- The in-memory cache `self._cache`: a dict from key to
`(results, expiry_time)` (rag.py line 29), with timestamps in seconds. -/
abbrev Cache := List (String × (List UniqueResource × ℚ))

/-- Dict read `self._cache[cache_key]` guarded by `cache_key in self._cache`. -/
def cacheLookup (cache : Cache) (key : String) : Option (List UniqueResource × ℚ) :=
  match cache.find? (fun e => e.1 == key) with
  | some e => some e.2
  | none => none

/-- `del self._cache[cache_key]` — dict keys are unique, so removing every
pair carrying the key is the dict deletion. -/
def cacheErase (cache : Cache) (key : String) : Cache :=
  cache.filter (fun e => !(e.1 == key))

/-- `self._cache[cache_key] = value` — insert-or-overwrite. -/
def cacheInsert (cache : Cache) (key : String) (value : List UniqueResource × ℚ) : Cache :=
  (key, value) :: cacheErase cache key

/-- `self._cache_ttl = timedelta(hours=1)` (rag.py line 30), in seconds. -/
def cacheTTL : ℚ := 3600

/-- What one call to `retrieve_resources_for_user` produces: the returned
list, the cache afterwards, and the fan-out queries dispatched to the
document store during the call (empty on a cache hit). -/
structure RetrieveOut where
  results : List UniqueResource
  cache : Cache
  dispatched : List QueryCall
deriving DecidableEq, Repr

/-- `RAGRetriever.retrieve_resources_for_user` (rag.py lines 132-162).
`now` stands for `datetime.now()`; the two reads of the clock at lines
148 and 160 happen within the same call and are modelled as one instant. -/
def retrieve_resources_for_user (env : QueryEnv) (cache : Cache) (now : ℚ)
    (stage : String) (categories : List CategoryScore) (top_k : Nat) : RetrieveOut :=
  match cacheLookup cache (get_cache_key stage categories top_k) with
  | some (results, expiry) =>
    if now < expiry then
      ⟨results, cache, []⟩
    else
      ⟨retrieve_resources_parallel env stage categories top_k,
       cacheInsert (cacheErase cache (get_cache_key stage categories top_k))
         (get_cache_key stage categories top_k)
         (retrieve_resources_parallel env stage categories top_k, now + cacheTTL),
       fanoutQueries stage categories⟩
  | none =>
    ⟨retrieve_resources_parallel env stage categories top_k,
     cacheInsert cache (get_cache_key stage categories top_k)
       (retrieve_resources_parallel env stage categories top_k, now + cacheTTL),
     fanoutQueries stage categories⟩

/-- The sort key of rag.py lines 328-334:
`x.get('metadata', \x7b\x7d).get('engagement_score', 0) or x.get('metadata', \x7b\x7d).get('view_count', 0)`.
The elements `x` are records built by `get_unique_resources`
(vector_store.py lines 247-259), which carry no `metadata` key at all, so
both lookups return their default and the key evaluates to `0` for every
element. -/
def socialSortKey (_ : UniqueResource) : ℚ := 0

/-- `RAGRetriever.retrieve_social_media_resources` (rag.py lines 276-337):
per resource type, one type-filtered query built from the weakest
category; per-type deduplication; then the (constant-key) engagement sort
and truncation to `limit`.  `resource_types = none` models passing Python
`None`, which line 297 replaces by `["video", "podcast", "tweet"]`. -/
def retrieve_social_media_resources (env : QueryEnv) (stage : String)
    (categories : List CategoryScore) (resource_types : Option (List String))
    (limit : Nat) : List UniqueResource :=
  let rts := resource_types.getD ["video", "podcast", "tweet"]
  let weakest_cats := weakCatNames categories
  let all_resources := rts.foldl
    (fun acc rt =>
      let query := match weakest_cats with
        | [] => "UX design insights for " ++ stage ++ " level"
        | c :: _ => c ++ " for " ++ stage ++ " level UX designer"
      let results := (env ⟨query, none, none, some rt, limit / rts.length + 2⟩).getD []
      acc ++ get_unique_resources results)
    []
  (List.insertionSort (fun a b => socialSortKey b ≤ socialSortKey a) all_resources).take limit

/-! ### Helper lemmas about the Deduplicator -/

lemma mem_get_unique_resources_aux {seen : List String} {chunks : List Chunk}
    {u : UniqueResource} (hu : u ∈ get_unique_resources_aux seen chunks) :
    u.resource_id ∉ seen ∧ u.resource_id ≠ "" := by
  induction chunks generalizing seen with
  | nil => simp [get_unique_resources_aux] at hu
  | cons c rest ih =>
    simp only [get_unique_resources_aux] at hu
    by_cases hc : c.metadata.resource_id ≠ "" ∧ c.metadata.resource_id ∉ seen
    · rw [if_pos hc] at hu
      rcases List.mem_cons.mp hu with h | h
      · subst h
        exact ⟨hc.2, hc.1⟩
      · have h2 := ih h
        exact ⟨fun hs => h2.1 (List.mem_cons_of_mem _ hs), h2.2⟩
    · rw [if_neg hc] at hu
      exact ih hu

lemma filter_get_unique_resources_aux_of_seen {seen : List String} {chunks : List Chunk}
    {rid : String} (h : rid ∈ seen) :
    (get_unique_resources_aux seen chunks).filter (fun u => u.resource_id == rid) = [] := by
  rw [List.filter_eq_nil_iff]
  intro u hu
  have h2 := mem_get_unique_resources_aux hu
  simp only [beq_iff_eq]
  exact fun he => h2.1 (by rw [he]; exact h)

lemma filter_get_unique_resources_aux_first_wins {rid : String} (h1 : rid ≠ "") :
    ∀ (chunks : List Chunk) (seen : List String), rid ∉ seen →
      (get_unique_resources_aux seen chunks).filter (fun u => u.resource_id == rid) =
        (match chunks.find? (fun c => c.metadata.resource_id == rid) with
         | some c => [mkUniqueResource c]
         | none => []) := by
  intro chunks
  induction chunks with
  | nil => intro seen _; simp [get_unique_resources_aux]
  | cons c rest ih =>
    intro seen h2
    by_cases hc : c.metadata.resource_id = rid
    · have hcond : c.metadata.resource_id ≠ "" ∧ c.metadata.resource_id ∉ seen := by
        rw [hc]; exact ⟨h1, h2⟩
      simp only [get_unique_resources_aux, List.find?_cons, hc, beq_self_eq_true]
      have hfe : ((mkUniqueResource c).resource_id == rid) = true := by
        simp [mkUniqueResource, hc]
      rw [if_pos (⟨h1, h2⟩ : rid ≠ "" ∧ rid ∉ seen), List.filter_cons, if_pos hfe,
        filter_get_unique_resources_aux_of_seen (List.mem_cons_self rid seen)]
    · have hbe : (c.metadata.resource_id == rid) = false := by
        simp [hc]
      simp only [get_unique_resources_aux, List.find?_cons, hbe]
      by_cases hcond : c.metadata.resource_id ≠ "" ∧ c.metadata.resource_id ∉ seen
      · rw [if_pos hcond]
        have hfe : ((mkUniqueResource c).resource_id == rid) = false := by
          simp [mkUniqueResource, hc]
        rw [List.filter_cons, if_neg (by simp [hfe])]
        exact ih _ (by
          intro hmem
          rcases List.mem_cons.mp hmem with h | h
          · exact hc h.symm
          · exact h2 h)
      · rw [if_neg hcond]
        exact ih _ h2

/-- C1: the Deduplicator emits exactly one `UniqueResource` per distinct
non-empty `resourceId`, built entirely from the first chunk bearing that
id (with `relevanceScore = 1 - distance` of that chunk); later chunks with
the same id are discarded, and chunks with an empty id produce nothing. -/
theorem deduplicator_first_chunk_wins (chunks : List Chunk) (rid : String) (h : rid ≠ "") :
    ((get_unique_resources chunks).filter (fun u => u.resource_id == rid) =
      (match chunks.find? (fun c => c.metadata.resource_id == rid) with
       | some c => [mkUniqueResource c]
       | none => []))
    ∧ (∀ u ∈ get_unique_resources chunks, u.resource_id ≠ "")
    ∧ (∀ c : Chunk, (mkUniqueResource c).relevance_score = 1 - c.distance) :=
  ⟨filter_get_unique_resources_aux_first_wins h chunks [] (List.not_mem_nil rid),
   fun _ hu => (mem_get_unique_resources_aux hu).2,
   fun _ => rfl⟩

/-- Spec example for C1: two chunks for resource `r1`, distances 4/5 then
1/10; one output record, taken from the first chunk. -/
def specDedupMeta : ResourceMetadata :=
  ⟨"r1", "title", "url", "cat", "diff", "article", "src", "", 5, 0, 0⟩

def specDedupChunk1 : Chunk := ⟨"c1", "content one", specDedupMeta, 4/5⟩

def specDedupChunk2 : Chunk := ⟨"c2", "content two", specDedupMeta, 1/10⟩

theorem deduplicator_first_chunk_wins_witness :
    ("r1" : String) ≠ ""
    ∧ get_unique_resources [specDedupChunk1, specDedupChunk2] = [mkUniqueResource specDedupChunk1]
    ∧ (mkUniqueResource specDedupChunk1).relevance_score = 1 - 4/5
    ∧ (((get_unique_resources [specDedupChunk1, specDedupChunk2]).filter
          (fun u => u.resource_id == "r1") =
        (match [specDedupChunk1, specDedupChunk2].find?
            (fun c => c.metadata.resource_id == "r1") with
         | some c => [mkUniqueResource c]
         | none => []))
      ∧ (∀ u ∈ get_unique_resources [specDedupChunk1, specDedupChunk2], u.resource_id ≠ "")
      ∧ (∀ c : Chunk, (mkUniqueResource c).relevance_score = 1 - c.distance)) :=
  ⟨by decide, rfl, rfl,
   deduplicator_first_chunk_wins [specDedupChunk1, specDedupChunk2] "r1" (by decide)⟩

/-! ### Stability of the key-based sorts

`List.insertionSort` on a `key`-induced relation is stable: for every key
value, the elements carrying that key appear in the sorted output in
their original relative order.  This is expressed through `filter`. -/

lemma filter_orderedInsert_key {α : Type} (R : α → α → Prop) [DecidableRel R] (k : α → ℚ)
    (hk : ∀ a b, ¬ R a b → k a ≠ k b) (q : ℚ) (a : α) (l : List α) :
    (List.orderedInsert R a l).filter (fun x => decide (k x = q)) =
      if k a = q then a :: l.filter (fun x => decide (k x = q))
      else l.filter (fun x => decide (k x = q)) := by
  induction l with
  | nil =>
    by_cases hq : k a = q <;> simp [List.orderedInsert, hq]
  | cons b l ih =>
    rw [List.orderedInsert]
    by_cases hR : R a b
    · rw [if_pos hR]
      by_cases hq : k a = q <;> simp [List.filter_cons, hq]
    · rw [if_neg hR]
      have hne : k a ≠ k b := hk a b hR
      by_cases hq : k a = q
      · have hbq : ¬ (k b = q) := fun hb => hne (by rw [hq, hb])
        simp only [List.filter_cons, ih]
        simp [hq, hbq]
      · simp only [List.filter_cons, ih]
        simp [hq]

lemma filter_insertionSort_key {α : Type} (R : α → α → Prop) [DecidableRel R] (k : α → ℚ)
    (hk : ∀ a b, ¬ R a b → k a ≠ k b) (q : ℚ) (l : List α) :
    (List.insertionSort R l).filter (fun x => decide (k x = q)) =
      l.filter (fun x => decide (k x = q)) := by
  induction l with
  | nil => rfl
  | cons a l ih =>
    rw [List.insertionSort, filter_orderedInsert_key R k hk q, ih, List.filter_cons]
    by_cases hq : k a = q <;> simp [hq]

lemma ratioLe_key (a b : CategoryScore) : ¬ ratioLe a b → ratio a ≠ ratio b :=
  fun hn => ne_of_gt (lt_of_not_le hn)

lemma relDesc_key (a b : UniqueResource) :
    ¬ relDesc a b → a.relevance_score ≠ b.relevance_score :=
  fun hn => ne_of_lt (lt_of_not_le hn)

/-- C2: on any category list with at least two entries, the category-scoped
fan-out queries target exactly the two categories of lowest
`score/maxScore` ratio: the stable ratio sort starts with `c1, c2`, a
permutation of the input with every remaining category's ratio at least
`ratio c2 ≥ ratio c1`; ties keep their original input order (the filter
equations); and the dispatched query list is the two category queries for
`c1.name, c2.name` followed by the stage query. -/
theorem weakest_pair_selection (stage : String) (cats : List CategoryScore)
    (h : 2 ≤ cats.length) :
    ∃ c1 c2 rest, sortByRatio cats = c1 :: c2 :: rest
      ∧ weakCatNames cats = [c1.name, c2.name]
      ∧ fanoutQueries stage cats = [catQuery stage c1.name, catQuery stage c2.name, stageQuery stage]
      ∧ cats.Perm (c1 :: c2 :: rest)
      ∧ ratio c1 ≤ ratio c2
      ∧ (∀ d ∈ rest, ratio c2 ≤ ratio d)
      ∧ (∀ q : ℚ, (sortByRatio cats).filter (fun c => decide (ratio c = q)) =
          cats.filter (fun c => decide (ratio c = q)))
      ∧ (∀ (env : QueryEnv) (cache : Cache) (now : ℚ) (k : Nat),
          cacheLookup cache (get_cache_key stage cats k) = none →
            (retrieve_resources_for_user env cache now stage cats k).dispatched =
              fanoutQueries stage cats) := by
  have hlen : (sortByRatio cats).length = cats.length :=
    (List.perm_insertionSort ratioLe cats).length_eq
  obtain ⟨c1, c2, rest, hsort⟩ : ∃ c1 c2 rest, sortByRatio cats = c1 :: c2 :: rest := by
    cases hs : sortByRatio cats with
    | nil => rw [hs] at hlen; simp at hlen; omega
    | cons a l =>
      cases l with
      | nil => rw [hs] at hlen; simp at hlen; omega
      | cons b l2 => exact ⟨a, b, l2, rfl⟩
  have hsorted : List.Sorted ratioLe (sortByRatio cats) :=
    List.sorted_insertionSort ratioLe cats
  rw [hsort] at hsorted
  refine ⟨c1, c2, rest, hsort, ?_, ?_, ?_, ?_, ?_, ?_, ?_⟩
  · rw [weakCatNames, hsort]; rfl
  · rw [fanoutQueries, weakCatNames, hsort]; rfl
  · have hsort2 : List.insertionSort ratioLe cats = c1 :: c2 :: rest := hsort
    have hp := List.perm_insertionSort ratioLe cats
    rw [hsort2] at hp
    exact hp.symm
  · exact List.rel_of_sorted_cons hsorted c2 (List.mem_cons_self _ _)
  · exact fun d hd => List.rel_of_sorted_cons (List.Pairwise.of_cons hsorted) d hd
  · exact fun q => filter_insertionSort_key ratioLe ratio ratioLe_key q cats
  · intro env cache now k hmiss
    simp [retrieve_resources_for_user, hmiss]

/-- Spec example for C2: categories A 90/100, B 30/100, C 50/100 — the two
dispatched category queries target B and C, not A. -/
def specCatA : CategoryScore := ⟨"A", 90, 100⟩

def specCatB : CategoryScore := ⟨"B", 30, 100⟩

def specCatC : CategoryScore := ⟨"C", 50, 100⟩

theorem weakest_pair_selection_witness :
    2 ≤ ([specCatA, specCatB, specCatC] : List CategoryScore).length
    ∧ (∃ c1 c2 rest, sortByRatio [specCatA, specCatB, specCatC] = c1 :: c2 :: rest
      ∧ weakCatNames [specCatA, specCatB, specCatC] = [c1.name, c2.name]
      ∧ fanoutQueries "Mid" [specCatA, specCatB, specCatC] =
          [catQuery "Mid" c1.name, catQuery "Mid" c2.name, stageQuery "Mid"]
      ∧ ([specCatA, specCatB, specCatC] : List CategoryScore).Perm (c1 :: c2 :: rest)
      ∧ ratio c1 ≤ ratio c2
      ∧ (∀ d ∈ rest, ratio c2 ≤ ratio d)
      ∧ (∀ q : ℚ, (sortByRatio [specCatA, specCatB, specCatC]).filter
            (fun c => decide (ratio c = q)) =
          ([specCatA, specCatB, specCatC] : List CategoryScore).filter
            (fun c => decide (ratio c = q)))
      ∧ (∀ (env : QueryEnv) (cache : Cache) (now : ℚ) (k : Nat),
          cacheLookup cache (get_cache_key "Mid" [specCatA, specCatB, specCatC] k) = none →
            (retrieve_resources_for_user env cache now "Mid" [specCatA, specCatB, specCatC]
              k).dispatched =
              fanoutQueries "Mid" [specCatA, specCatB, specCatC]))
    ∧ weakCatNames [specCatA, specCatB, specCatC] = ["B", "C"] :=
  ⟨by decide,
   weakest_pair_selection "Mid" [specCatA, specCatB, specCatC] (by decide),
   by
    norm_num [weakCatNames, sortByRatio, List.insertionSort, List.orderedInsert, ratioLe, ratio,
      specCatA, specCatB, specCatC]⟩

/-! ### Helper lemmas about the cache and the facade -/

lemma cacheLookup_insert_self (cache : Cache) (key : String)
    (v : List UniqueResource × ℚ) : cacheLookup (cacheInsert cache key v) key = some v := by
  simp [cacheInsert, cacheLookup, List.find?_cons]

lemma cacheLookup_erase_self (cache : Cache) (key : String) :
    cacheLookup (cacheErase cache key) key = none := by
  rw [cacheLookup]
  have : (cacheErase cache key).find? (fun e => e.1 == key) = none := by
    rw [List.find?_eq_none]
    intro e he
    have h2 := (List.mem_filter.mp he).2
    simp at h2
    simp [h2]
  rw [this]

lemma retrieve_hit (env : QueryEnv) (cache : Cache) (now : ℚ) (stage : String)
    (cats : List CategoryScore) (k : Nat) (r : List UniqueResource) (e : ℚ)
    (h : cacheLookup cache (get_cache_key stage cats k) = some (r, e)) (hf : now < e) :
    retrieve_resources_for_user env cache now stage cats k = ⟨r, cache, []⟩ := by
  simp [retrieve_resources_for_user, h, hf]

lemma retrieve_stale (env : QueryEnv) (cache : Cache) (now : ℚ) (stage : String)
    (cats : List CategoryScore) (k : Nat) (r : List UniqueResource) (e : ℚ)
    (h : cacheLookup cache (get_cache_key stage cats k) = some (r, e)) (hs : e ≤ now) :
    retrieve_resources_for_user env cache now stage cats k =
      ⟨retrieve_resources_parallel env stage cats k,
       cacheInsert (cacheErase cache (get_cache_key stage cats k)) (get_cache_key stage cats k)
         (retrieve_resources_parallel env stage cats k, now + cacheTTL),
       fanoutQueries stage cats⟩ := by
  simp [retrieve_resources_for_user, h, not_lt.mpr hs]

lemma retrieve_miss (env : QueryEnv) (cache : Cache) (now : ℚ) (stage : String)
    (cats : List CategoryScore) (k : Nat)
    (h : cacheLookup cache (get_cache_key stage cats k) = none) :
    retrieve_resources_for_user env cache now stage cats k =
      ⟨retrieve_resources_parallel env stage cats k,
       cacheInsert cache (get_cache_key stage cats k)
         (retrieve_resources_parallel env stage cats k, now + cacheTTL),
       fanoutQueries stage cats⟩ := by
  simp [retrieve_resources_for_user, h]

/-- After any call, the cache entry under the call's key holds exactly the
list that call returned. -/
lemma entry_holds_returned_results (env : QueryEnv) (cache : Cache) (now : ℚ) (stage : String)
    (cats : List CategoryScore) (k : Nat) (r : List UniqueResource) (e : ℚ)
    (h : cacheLookup (retrieve_resources_for_user env cache now stage cats k).cache
          (get_cache_key stage cats k) = some (r, e)) :
    r = (retrieve_resources_for_user env cache now stage cats k).results := by
  cases hlook : cacheLookup cache (get_cache_key stage cats k) with
  | none =>
    rw [retrieve_miss env cache now stage cats k hlook] at h ⊢
    rw [cacheLookup_insert_self] at h
    exact (congrArg Prod.fst (Option.some_injective _ h)).symm
  | some p =>
    obtain ⟨r0, e0⟩ := p
    by_cases hfr : now < e0
    · rw [retrieve_hit env cache now stage cats k r0 e0 hlook hfr] at h ⊢
      rw [hlook] at h
      exact (congrArg Prod.fst (Option.some_injective _ h)).symm
    · rw [retrieve_stale env cache now stage cats k r0 e0 hlook (not_lt.mp hfr)] at h ⊢
      rw [cacheLookup_insert_self] at h
      exact (congrArg Prod.fst (Option.some_injective _ h)).symm

/-- C3: while the entry for the key is fresh (`now < expiresAt`), a second
call with identical arguments returns exactly the stored list — which is
the first call's returned list — leaves the cache untouched, and
dispatches no query to the document store. -/
theorem cache_hit_idempotent (env1 env2 : QueryEnv) (cache : Cache) (now1 now2 : ℚ)
    (stage : String) (cats : List CategoryScore) (k : Nat) (r : List UniqueResource) (e : ℚ)
    (h : cacheLookup (retrieve_resources_for_user env1 cache now1 stage cats k).cache
          (get_cache_key stage cats k) = some (r, e))
    (hf : now2 < e) :
    retrieve_resources_for_user env2
        (retrieve_resources_for_user env1 cache now1 stage cats k).cache now2 stage cats k =
      ⟨r, (retrieve_resources_for_user env1 cache now1 stage cats k).cache, []⟩
    ∧ r = (retrieve_resources_for_user env1 cache now1 stage cats k).results :=
  ⟨retrieve_hit env2 _ now2 stage cats k r e h hf,
   entry_holds_returned_results env1 cache now1 stage cats k r e h⟩

/-- Concrete categories used by the cache witnesses (`maxScore = 0`, so the
ratio is the `else` branch `0` and kernel evaluation needs no division). -/
def wcatB : CategoryScore := ⟨"B", 0, 0⟩

def wcatC : CategoryScore := ⟨"C", 0, 0⟩

/-- A document store behaviour where every dispatched query fails. -/
def envNone : QueryEnv := fun _ => none

theorem cache_hit_idempotent_witness :
    retrieve_resources_for_user envNone
        (retrieve_resources_for_user envNone [] 0 "Mid" [wcatB, wcatC] 5).cache 1
        "Mid" [wcatB, wcatC] 5 =
      ⟨[], (retrieve_resources_for_user envNone [] 0 "Mid" [wcatB, wcatC] 5).cache, []⟩
    ∧ ([] : List UniqueResource) =
        (retrieve_resources_for_user envNone [] 0 "Mid" [wcatB, wcatC] 5).results :=
  cache_hit_idempotent envNone envNone [] 0 1 "Mid" [wcatB, wcatC] 5 [] (0 + cacheTTL) rfl
    (lt_of_lt_of_le (by decide : (1 : ℚ) < cacheTTL) (le_of_eq (zero_add cacheTTL).symm))

/-- C4: a read at `now ≥ expiresAt` is a miss: the stale entry is deleted,
the fan-out engine recomputes the results and a fresh entry with expiry
`now + 1h` is stored. -/
theorem cache_expiry_recompute (env : QueryEnv) (cache : Cache) (now : ℚ)
    (stage : String) (cats : List CategoryScore) (k : Nat) (r : List UniqueResource) (e : ℚ)
    (h : cacheLookup cache (get_cache_key stage cats k) = some (r, e)) (hs : e ≤ now) :
    retrieve_resources_for_user env cache now stage cats k =
      ⟨retrieve_resources_parallel env stage cats k,
       cacheInsert (cacheErase cache (get_cache_key stage cats k)) (get_cache_key stage cats k)
         (retrieve_resources_parallel env stage cats k, now + cacheTTL),
       fanoutQueries stage cats⟩
    ∧ cacheLookup (cacheErase cache (get_cache_key stage cats k))
        (get_cache_key stage cats k) = none :=
  ⟨retrieve_stale env cache now stage cats k r e h hs,
   cacheLookup_erase_self cache (get_cache_key stage cats k)⟩

/-- Witness for C4: an entry created at `t0 = 0` with TTL one hour
(expiry 3600), read at `t0 + 3600 + 1`. -/
theorem cache_expiry_recompute_witness :
    retrieve_resources_for_user envNone
        [(get_cache_key "Mid" [wcatB, wcatC] 5, ([], (3600 : ℚ)))] 3601 "Mid" [wcatB, wcatC] 5 =
      ⟨retrieve_resources_parallel envNone "Mid" [wcatB, wcatC] 5,
       cacheInsert
         (cacheErase [(get_cache_key "Mid" [wcatB, wcatC] 5, ([], (3600 : ℚ)))]
           (get_cache_key "Mid" [wcatB, wcatC] 5))
         (get_cache_key "Mid" [wcatB, wcatC] 5)
         (retrieve_resources_parallel envNone "Mid" [wcatB, wcatC] 5, 3601 + cacheTTL),
       fanoutQueries "Mid" [wcatB, wcatC]⟩
    ∧ cacheLookup
        (cacheErase [(get_cache_key "Mid" [wcatB, wcatC] 5, ([], (3600 : ℚ)))]
          (get_cache_key "Mid" [wcatB, wcatC] 5))
        (get_cache_key "Mid" [wcatB, wcatC] 5) = none :=
  cache_expiry_recompute envNone [(get_cache_key "Mid" [wcatB, wcatC] 5, ([], (3600 : ℚ)))]
    3601 "Mid" [wcatB, wcatC] 5 [] 3600 rfl (by decide)

/-! ### Failure tolerance of the fan-out -/

lemma foldl_id_of_mem {α β : Type} (f : β → α → β) (l : List α)
    (h : ∀ q ∈ l, ∀ acc, f acc q = acc) : ∀ acc, l.foldl f acc = acc := by
  induction l with
  | nil => intro acc; rfl
  | cons a l ih =>
    intro acc
    rw [List.foldl_cons, h a (List.mem_cons_self _ _)]
    exact ih (fun q hq => h q (List.mem_cons_of_mem _ hq)) acc

lemma foldl_congr_of_mem {α β : Type} (f g : β → α → β) (l : List α)
    (h : ∀ q ∈ l, ∀ acc, f acc q = g acc q) : ∀ acc, l.foldl f acc = l.foldl g acc := by
  induction l with
  | nil => intro _; rfl
  | cons a l ih =>
    intro acc
    rw [List.foldl_cons, List.foldl_cons, h a (List.mem_cons_self _ _)]
    exact ih (fun q hq => h q (List.mem_cons_of_mem _ hq)) _

lemma gatherResources_of_all_fail (env : QueryEnv) (stage : String)
    (cats : List CategoryScore) (hall : ∀ q ∈ fanoutQueries stage cats, env q = none) :
    gatherResources env stage cats = [] := by
  rw [gatherResources]
  exact foldl_id_of_mem _ _ (fun q hq acc => by rw [hall q hq]) []

lemma retrieve_resources_parallel_of_all_fail (env : QueryEnv) (stage : String)
    (cats : List CategoryScore) (k : Nat)
    (hall : ∀ q ∈ fanoutQueries stage cats, env q = none) :
    retrieve_resources_parallel env stage cats k = [] := by
  rw [retrieve_resources_parallel, gatherResources_of_all_fail env stage cats hall]
  simp [dedupResources, dedupResourcesAux]

/-- C5: queries that raise or time out are dropped without failing the
call.  If every dispatched query fails, the fan-out computes `[]` and a
cache-missing `retrieve_resources_for_user` returns `[]` (the model is a
total function — no exception escapes); and in general the result equals
the result of the environment in which every failed query instead
returned no chunks, i.e. the surviving queries' results are all used. -/
theorem fanout_failure_tolerance (env : QueryEnv) (cache : Cache) (now : ℚ)
    (stage : String) (cats : List CategoryScore) (k : Nat) :
    ((∀ q ∈ fanoutQueries stage cats, env q = none) →
      retrieve_resources_parallel env stage cats k = []
      ∧ (cacheLookup cache (get_cache_key stage cats k) = none →
          (retrieve_resources_for_user env cache now stage cats k).results = []))
    ∧ retrieve_resources_parallel env stage cats k =
        retrieve_resources_parallel (fun q => some ((env q).getD [])) stage cats k := by
  constructor
  · intro hall
    have hpar := retrieve_resources_parallel_of_all_fail env stage cats k hall
    refine ⟨hpar, fun hmiss => ?_⟩
    rw [retrieve_miss env cache now stage cats k hmiss]
    exact hpar
  · have hg : gatherResources env stage cats =
        gatherResources (fun q => some ((env q).getD [])) stage cats := by
      rw [gatherResources, gatherResources]
      refine foldl_congr_of_mem _ _ _ (fun q _ acc => ?_) []
      cases he : env q with
      | none =>
        show acc = acc ++ semantic_search_resources [] q.top_k
        rw [semantic_search_resources]
        simp [get_unique_resources, get_unique_resources_aux]
      | some chunks => rfl
    rw [retrieve_resources_parallel, retrieve_resources_parallel, hg]

theorem fanout_failure_tolerance_witness :
    retrieve_resources_parallel envNone "Mid" [wcatB, wcatC] 5 = []
    ∧ (retrieve_resources_for_user envNone [] 0 "Mid" [wcatB, wcatC] 5).results = [] := by
  have h := (fanout_failure_tolerance envNone [] 0 "Mid" [wcatB, wcatC] 5).1 (fun q _ => rfl)
  exact ⟨h.1, h.2 rfl⟩

/-- C10: on a miss the computed list — whatever it is, including the empty
list produced when every fan-out query fails — is stored unconditionally
with expiry `now + 1h`; any identical request before that instant is a
hit returning the stored (possibly empty) list with no fan-out queries. -/
theorem empty_results_negatively_cached (env : QueryEnv) (cache : Cache) (now : ℚ)
    (stage : String) (cats : List CategoryScore) (k : Nat)
    (hmiss : cacheLookup cache (get_cache_key stage cats k) = none) :
    (retrieve_resources_for_user env cache now stage cats k).results =
        retrieve_resources_parallel env stage cats k
    ∧ (retrieve_resources_for_user env cache now stage cats k).cache =
        cacheInsert cache (get_cache_key stage cats k)
          (retrieve_resources_parallel env stage cats k, now + cacheTTL)
    ∧ cacheLookup (retrieve_resources_for_user env cache now stage cats k).cache
        (get_cache_key stage cats k) =
        some (retrieve_resources_parallel env stage cats k, now + cacheTTL)
    ∧ (∀ (env2 : QueryEnv) (now2 : ℚ), now2 < now + cacheTTL →
        retrieve_resources_for_user env2
            (retrieve_resources_for_user env cache now stage cats k).cache now2 stage cats k =
          ⟨retrieve_resources_parallel env stage cats k,
           (retrieve_resources_for_user env cache now stage cats k).cache, []⟩)
    ∧ ((∀ q ∈ fanoutQueries stage cats, env q = none) →
        (retrieve_resources_for_user env cache now stage cats k).results = []) := by
  have hcall := retrieve_miss env cache now stage cats k hmiss
  have hlook : cacheLookup (retrieve_resources_for_user env cache now stage cats k).cache
      (get_cache_key stage cats k) =
      some (retrieve_resources_parallel env stage cats k, now + cacheTTL) := by
    rw [hcall]
    exact cacheLookup_insert_self cache _ _
  refine ⟨by rw [hcall], by rw [hcall], hlook, ?_, ?_⟩
  · intro env2 now2 hf
    exact retrieve_hit env2 _ now2 stage cats k _ _ hlook hf
  · intro hall
    rw [hcall]
    exact retrieve_resources_parallel_of_all_fail env stage cats k hall

theorem empty_results_negatively_cached_witness :
    (retrieve_resources_for_user envNone [] 0 "Mid" [wcatB, wcatC] 5).results = []
    ∧ retrieve_resources_for_user envNone
          (retrieve_resources_for_user envNone [] 0 "Mid" [wcatB, wcatC] 5).cache 1
          "Mid" [wcatB, wcatC] 5 =
        ⟨retrieve_resources_parallel envNone "Mid" [wcatB, wcatC] 5,
         (retrieve_resources_for_user envNone [] 0 "Mid" [wcatB, wcatC] 5).cache, []⟩ := by
  have h := empty_results_negatively_cached envNone [] 0 "Mid" [wcatB, wcatC] 5 rfl
  exact ⟨h.2.2.2.2 (fun q _ => rfl),
    h.2.2.2.1 envNone 1
      (lt_of_lt_of_le (by decide : (1 : ℚ) < cacheTTL) (le_of_eq (zero_add cacheTTL).symm))⟩

/-! ### Ranking of the deduplicated results -/

/-- C6: the primary path returns the deduplicated list sorted descending by
`relevance_score` and truncated to `top_k`: the call's value is exactly
`take top_k` of the stable descending sort of the deduplicated gather; the
output is `relDesc`-sorted of length at most `top_k`; the sort is a
permutation that preserves the dedup-emission order within every tie class
(the filter equations); a cache-missing `retrieve_resources_for_user`
returns it; and under pairwise-distinct relevance scores the output is
strictly descending. -/
theorem ranking_descending_truncated (env : QueryEnv) (cache : Cache) (now : ℚ)
    (stage : String) (cats : List CategoryScore) (k : Nat) :
    retrieve_resources_parallel env stage cats k =
      (List.insertionSort relDesc (dedupResources (gatherResources env stage cats))).take k
    ∧ (retrieve_resources_parallel env stage cats k).Sorted relDesc
    ∧ (retrieve_resources_parallel env stage cats k).length ≤ k
    ∧ (List.insertionSort relDesc (dedupResources (gatherResources env stage cats))).Perm
        (dedupResources (gatherResources env stage cats))
    ∧ (∀ q : ℚ, (List.insertionSort relDesc
          (dedupResources (gatherResources env stage cats))).filter
            (fun u => decide (u.relevance_score = q)) =
        (dedupResources (gatherResources env stage cats)).filter
          (fun u => decide (u.relevance_score = q)))
    ∧ (cacheLookup cache (get_cache_key stage cats k) = none →
        (retrieve_resources_for_user env cache now stage cats k).results =
          retrieve_resources_parallel env stage cats k)
    ∧ ((dedupResources (gatherResources env stage cats)).Pairwise
          (fun a b => a.relevance_score ≠ b.relevance_score) →
        (retrieve_resources_parallel env stage cats k).Pairwise
          (fun a b => b.relevance_score < a.relevance_score)) := by
  have hsorted : List.Sorted relDesc
      (List.insertionSort relDesc (dedupResources (gatherResources env stage cats))) :=
    List.sorted_insertionSort relDesc _
  refine ⟨rfl, ?_, ?_, List.perm_insertionSort relDesc _, ?_, ?_, ?_⟩
  · exact List.Pairwise.sublist (List.take_sublist _ _) hsorted
  · rw [retrieve_resources_parallel, List.length_take]
    exact min_le_left _ _
  · exact fun q => filter_insertionSort_key relDesc (fun u => u.relevance_score) relDesc_key q _
  · intro hmiss
    rw [retrieve_miss env cache now stage cats k hmiss]
  · intro hp
    have hps : (List.insertionSort relDesc
        (dedupResources (gatherResources env stage cats))).Pairwise
        (fun a b => a.relevance_score ≠ b.relevance_score) :=
      ((List.perm_insertionSort relDesc _).pairwise_iff (fun h => h.symm)).mpr hp
    have hcomb := List.Pairwise.and hsorted hps
    have hstrict := hcomb.imp
      (fun h => lt_of_le_of_ne h.1 (Ne.symm h.2))
    exact List.Pairwise.sublist (List.take_sublist _ _) hstrict

/-- Environment for the C6 witness: the stage query returns two chunks for
distinct resources with distinct distances; category queries return
nothing (the category list is empty so only the stage query is issued). -/
def rankChunkLo : Chunk :=
  ⟨"k1", "one", ⟨"r1", "t1", "u1", "c", "d", "article", "s", "", 1, 0, 0⟩, 1/2⟩

def rankChunkHi : Chunk :=
  ⟨"k2", "two", ⟨"r2", "t2", "u2", "c", "d", "article", "s", "", 1, 0, 0⟩, 0⟩

def envRank : QueryEnv := fun q =>
  if q.category = none then some [rankChunkLo, rankChunkHi] else some []

lemma envRank_pairwise :
    (dedupResources (gatherResources envRank "Mid" [])).Pairwise
      (fun a b => a.relevance_score ≠ b.relevance_score) := by
  have hev : dedupResources (gatherResources envRank "Mid" []) =
      [mkUniqueResource rankChunkLo, mkUniqueResource rankChunkHi] := rfl
  rw [hev]
  refine List.pairwise_cons.mpr ⟨?_, List.pairwise_singleton _ _⟩
  intro b hb
  rw [List.mem_singleton.mp hb]
  show (1 : ℚ) - 1/2 ≠ 1 - 0
  norm_num

theorem ranking_descending_truncated_witness :
    (retrieve_resources_for_user envRank [] 0 "Mid" [] 5).results =
      retrieve_resources_parallel envRank "Mid" [] 5
    ∧ (retrieve_resources_parallel envRank "Mid" [] 5).Pairwise
        (fun a b => b.relevance_score < a.relevance_score)
    ∧ (retrieve_resources_parallel envRank "Mid" [] 5).length ≤ 5 :=
  ⟨(ranking_descending_truncated envRank [] 0 "Mid" [] 5).2.2.2.2.2.1 rfl,
   (ranking_descending_truncated envRank [] 0 "Mid" [] 5).2.2.2.2.2.2 envRank_pairwise,
   (ranking_descending_truncated envRank [] 0 "Mid" [] 5).2.2.1⟩

/-! ### Cache-key normalization -/

/-- C7: the cache key is a function of the stage, the alphabetically
sorted names of the two weakest categories, and `top_k` alone — any two
category lists whose weakest pairs sort to the same name list share the
key, whatever the order or the other entries. -/
theorem cache_key_normalized (stage : String) (k : Nat) (cats1 cats2 : List CategoryScore)
    (h : List.insertionSort pyStrLe (weakCatNames cats1) =
         List.insertionSort pyStrLe (weakCatNames cats2)) :
    get_cache_key stage cats1 k = get_cache_key stage cats2 k := by
  rw [get_cache_key, get_cache_key, h]

theorem cache_key_normalized_witness :
    List.insertionSort pyStrLe (weakCatNames [wcatB, wcatC]) =
      List.insertionSort pyStrLe (weakCatNames [wcatC, wcatB])
    ∧ get_cache_key "Mid" [wcatB, wcatC] 5 = get_cache_key "Mid" [wcatC, wcatB] 5
    ∧ get_cache_key "Mid" [wcatB, wcatC] 5 = "Mid:B,C:5" :=
  ⟨by decide, cache_key_normalized "Mid" 5 [wcatB, wcatC] [wcatC, wcatB] (by decide), rfl⟩

/-! ### The social-media ranking axis -/

/-- Two social chunks for distinct resources; the first-merged one has the
lower engagement score. -/
def socialChunkLo : Chunk :=
  ⟨"s1", "low", ⟨"v1", "t1", "u1", "c", "d", "video", "yt", "", 1, 5, 0⟩, 0⟩

def socialChunkHi : Chunk :=
  ⟨"s2", "high", ⟨"v2", "t2", "u2", "c", "d", "video", "yt", "", 1, 10, 0⟩, 0⟩

def envSocial : QueryEnv := fun q =>
  if q.resource_type = some "video" then some [socialChunkLo, socialChunkHi] else some []

/-- C8 (code evaluated at the failing input): `retrieve_social_media_resources`
does not sort by engagement.  The records it sorts are built by
`get_unique_resources`, which carries no `metadata` key, so the sort key
`x.get('metadata', ...).get('engagement_score', 0) or ...view_count...`
is `0` for every element and the merge order survives: the resource with
engagement 5 is returned before the resource with engagement 10. -/
theorem social_sort_key_constant :
    retrieve_social_media_resources envSocial "Mid" [] (some ["video"]) 8 =
      [mkUniqueResource socialChunkLo, mkUniqueResource socialChunkHi]
    ∧ socialChunkLo.metadata.engagement_score < socialChunkHi.metadata.engagement_score
    ∧ retrieve_social_media_resources envSocial "Mid" [] (some ["video"]) 8 ≠
        [mkUniqueResource socialChunkHi, mkUniqueResource socialChunkLo]
    ∧ socialSortKey (mkUniqueResource socialChunkLo) =
        socialSortKey (mkUniqueResource socialChunkHi) :=
  ⟨rfl, by decide, by decide, rfl⟩
